import Mathlib

/-
Verification of the c-linked-list crate (src/lib.rs): a wrapper over a
foreign C linked list reached through raw pointers and a caller-supplied
successor function.

Embedding conventions.  Node addresses are natural numbers and the address
0 plays the role of the NULL pointer sentinel.  A memory of type Nat → T
assigns to every address the node value stored there; a Rust reference
into the chain is modelled by the address it points at, and reading
through the reference is application of the memory.  The caller-supplied
successor function Fn(&T) -> *const T / *mut T becomes a pure function
T → Nat from node values to raw addresses.  The while loops of the source
do not terminate on a cyclic chain, so their Lean counterparts take
explicit fuel and return none when the fuel runs out; on any acyclic
chain a large enough fuel makes them total.
-/

set_option autoImplicit false

namespace CLinkedListModel

variable {T : Type}

/-- The wrapper struct CLinkedList of src/lib.rs.  The field element is the
stored head address (a Shared pointer in the source, produced by the
null-checked Shared::new in both constructors) and the field next is the
stored caller-supplied successor function.  Both pointer-mutability
variants of the Rust type share this value-level shape. -/
structure CLinkedList (T : Type) where
  element : Nat
  next : T → Nat

/-- CLinkedList::from_const_ptr of src/lib.rs: Shared::new performs the
null check, so a null head yields None and a non-null head yields a handle
wrapping exactly that address and that successor function. -/
def CLinkedList.from_const_ptr (head : Nat) (next : T → Nat) :
    Option (CLinkedList T) :=
  if head = 0 then none else some ⟨head, next⟩

/-- CLinkedList::from_mut_ptr of src/lib.rs: the same null-checked
construction for the mutable-pointer variant. -/
def CLinkedList.from_mut_ptr (head : Nat) (next : T → Nat) :
    Option (CLinkedList T) :=
  if head = 0 then none else some ⟨head, next⟩

/-- The while loop of CLinkedList::len of src/lib.rs: e is the current
address, ret the count so far (started at 1 for the head by the caller),
and the loop advances while the successor of the current node is non-null.
Fuel bounds the number of iterations; none models exhausted fuel. -/
def lenLoop (mem : Nat → T) (nx : T → Nat) : Nat → Nat → Nat → Option Nat
  | 0, _, _ => none
  | fuel + 1, e, ret =>
    let p := nx (mem e)
    if p = 0 then some ret else lenLoop mem nx fuel p (ret + 1)

/-- CLinkedList::len of src/lib.rs (the const and mut pointer variants have
identical bodies): ret starts at 1 for the head and the loop adds 1 for
every non-null successor reached. -/
def CLinkedList.len (mem : Nat → T) (l : CLinkedList T) (fuel : Nat) :
    Option Nat :=
  lenLoop mem l.next fuel l.element 1

/-- The struct Iter of src/lib.rs: a borrowed view of the originating list
together with prev, the address of the previously yielded node (none
before the first call to next).  The two pointer variants of the Rust impl
have identical bodies and are embedded once. -/
structure Iter (T : Type) where
  list : CLinkedList T
  prev : Option Nat

/-- CLinkedList::iter of src/lib.rs: a fresh iterator with prev = None. -/
def CLinkedList.iter (l : CLinkedList T) : Iter T :=
  ⟨l, none⟩

/-- Iter::next of src/lib.rs: compute the pending address (the stored head
when not yet started, otherwise the successor of the previously yielded
node); if it is null yield nothing and leave the state unchanged,
otherwise record it in prev and yield it. -/
def Iter.next (mem : Nat → T) (it : Iter T) : Option Nat × Iter T :=
  let p := match it.prev with
    | none => it.list.element
    | some prev => it.list.next (mem prev)
  if p = 0 then (none, it) else (some p, ⟨it.list, some p⟩)

/-- Iter::size_hint of src/lib.rs: recompute self.list.len() and report it
as both the lower and the upper bound.  The walk needs fuel, as len does. -/
def Iter.size_hint (mem : Nat → T) (it : Iter T) (fuel : Nat) :
    Option (Nat × Option Nat) :=
  match CLinkedList.len mem it.list fuel with
  | none => none
  | some len => some (len, some len)

/-- The struct IterMut of src/lib.rs: same cursor shape as Iter, but prev
holds the address of the previously yielded exclusively borrowed node. -/
structure IterMut (T : Type) where
  list : CLinkedList T
  prev : Option Nat

/-- CLinkedList::iter_mut of src/lib.rs: a fresh mutable iterator with
prev = None. -/
def CLinkedList.iter_mut (l : CLinkedList T) : IterMut T :=
  ⟨l, none⟩

/-- IterMut::next of src/lib.rs: same stepping as Iter::next, reading the
successor through the previously yielded node before advancing. -/
def IterMut.next (mem : Nat → T) (it : IterMut T) : Option Nat × IterMut T :=
  let p := match it.prev with
    | none => it.list.element
    | some prev => it.list.next (mem prev)
  if p = 0 then (none, it) else (some p, ⟨it.list, some p⟩)

/-- IterMut::size_hint of src/lib.rs: identical to Iter::size_hint, a full
recount of self.list.len(). -/
def IterMut.size_hint (mem : Nat → T) (it : IterMut T) (fuel : Nat) :
    Option (Nat × Option Nat) :=
  match CLinkedList.len mem it.list fuel with
  | none => none
  | some len => some (len, some len)

/-- Running a read-only iterator to exhaustion and collecting the yielded
addresses in order, as a consumer of the Iterator protocol does.  Fuel
bounds the number of next calls. -/
def iterCollect (mem : Nat → T) : Nat → Iter T → Option (List Nat)
  | 0, _ => none
  | fuel + 1, it =>
    match Iter.next mem it with
    | (none, _) => some []
    | (some a, it2) =>
      match iterCollect mem fuel it2 with
      | none => none
      | some rest => some (a :: rest)

/-- CLinkedList::contains of src/lib.rs (both variants): self.iter().any of
equality with x, reading each yielded reference. -/
def CLinkedList.contains [DecidableEq T] (mem : Nat → T) (l : CLinkedList T)
    (x : T) (fuel : Nat) : Option Bool :=
  match iterCollect mem fuel l.iter with
  | none => none
  | some addrs => some (addrs.any fun a => mem a == x)

/-- CLinkedList::is_empty of src/lib.rs: whether the stored head address is
null. -/
def CLinkedList.is_empty (l : CLinkedList T) : Bool :=
  l.element == 0

/-- CLinkedList::front of src/lib.rs: none when the stored head address is
null, otherwise a reference to the head node (modelled by its address). -/
def CLinkedList.front (l : CLinkedList T) : Option Nat :=
  if l.element = 0 then none else some l.element

/-- CLinkedList::front_mut of src/lib.rs: the same null check, yielding an
exclusive reference to the head node (modelled by its address). -/
def CLinkedList.front_mut (l : CLinkedList T) : Option Nat :=
  if l.element = 0 then none else some l.element

/-- Writing the value v through a reference to address a: the memory after
the store. -/
def memWrite (mem : Nat → T) (a : Nat) (v : T) : Nat → T :=
  fun q => if q = a then v else mem q

/-- The consumer loop for node in list.iter_mut { *node = g(*node) }: each
next call is answered from the current memory (so successor lookups read
through the previously mutated node), then the yielded node is overwritten
by g of its value.  Returns the final memory, or none when fuel runs out. -/
def iterMutForeach (g : T → T) : Nat → (Nat → T) → IterMut T → Option (Nat → T)
  | 0, _, _ => none
  | fuel + 1, mem, it =>
    match IterMut.next mem it with
    | (none, _) => some mem
    | (some a, it2) => iterMutForeach g fuel (memWrite mem a (g (mem a))) it2

/-- The pending address of a read-only iterator: what Iter::next is about
to test against null. -/
def iterPend (mem : Nat → T) (it : Iter T) : Nat :=
  match it.prev with
  | none => it.list.element
  | some prev => it.list.next (mem prev)

/-- The pending address of a mutable iterator. -/
def iterMutPend (mem : Nat → T) (it : IterMut T) : Nat :=
  match it.prev with
  | none => it.list.element
  | some prev => it.list.next (mem prev)

/-- The specification-side description of a valid acyclic null-terminated
chain: walksTo mem nx a l holds when the walk that starts at address a and
repeatedly applies the successor function visits exactly the addresses of
l, in order, and then reaches the null sentinel. -/
def walksTo (mem : Nat → T) (nx : T → Nat) : Nat → List Nat → Bool
  | a, [] => a == 0
  | a, b :: rest => a == b && !(a == 0) && walksTo mem nx (nx (mem a)) rest

/-- Concrete three-node test chain mirroring the crate's own tests: node
values carry a payload and a next address, stored at addresses 1, 2, 3
with payloads 10, 20, 30 and links 1 → 2 → 3 → null. -/
def memT : Nat → Nat × Nat := fun a =>
  if a = 1 then (10, 2)
  else if a = 2 then (20, 3)
  else if a = 3 then (30, 0)
  else (0, 0)

/-- Concrete two-node chain 1 → 2 → null with payloads 10, 20, used to
exhibit the stale size hint. -/
def memB : Nat → Nat × Nat := fun a =>
  if a = 1 then (10, 2)
  else if a = 2 then (20, 0)
  else (0, 0)

theorem walksTo_nil (mem : Nat → T) (nx : T → Nat) (a : Nat) :
    walksTo mem nx a [] = true ↔ a = 0 := by
  simp [walksTo]

theorem walksTo_cons (mem : Nat → T) (nx : T → Nat) (a b : Nat)
    (rest : List Nat) :
    walksTo mem nx a (b :: rest) = true ↔
      a = b ∧ a ≠ 0 ∧ walksTo mem nx (nx (mem a)) rest = true := by
  simp [walksTo, and_assoc]

theorem iter_next_eq (mem : Nat → T) (it : Iter T) :
    Iter.next mem it =
      if iterPend mem it = 0 then (none, it)
      else (some (iterPend mem it), ⟨it.list, some (iterPend mem it)⟩) := by
  cases it with
  | mk l pr => cases pr <;> rfl

theorem iterMut_next_eq (mem : Nat → T) (it : IterMut T) :
    IterMut.next mem it =
      if iterMutPend mem it = 0 then (none, it)
      else (some (iterMutPend mem it), ⟨it.list, some (iterMutPend mem it)⟩) := by
  cases it with
  | mk l pr => cases pr <;> rfl

theorem from_ptr_some {h : Nat} {nx : T → Nat} {l : CLinkedList T}
    (hc : CLinkedList.from_const_ptr h nx = some l ∨
      CLinkedList.from_mut_ptr h nx = some l) :
    h ≠ 0 ∧ l = ⟨h, nx⟩ := by
  by_cases h0 : h = 0
  · rcases hc with hc | hc <;>
      simp [CLinkedList.from_const_ptr, CLinkedList.from_mut_ptr, h0] at hc
  · rcases hc with hc | hc <;>
      · simp [CLinkedList.from_const_ptr, CLinkedList.from_mut_ptr, h0] at hc
        exact ⟨h0, hc.symm⟩

theorem lenLoop_eq (mem : Nat → T) (nx : T → Nat) :
    ∀ (rest : List Nat) (a ret fuel : Nat),
      walksTo mem nx (nx (mem a)) rest = true → rest.length < fuel →
      lenLoop mem nx fuel a ret = some (ret + rest.length) := by
  intro rest
  induction rest with
  | nil =>
    intro a ret fuel hw hf
    cases fuel with
    | zero => omega
    | succ f =>
      have h0 : nx (mem a) = 0 := (walksTo_nil mem nx _).mp hw
      simp [lenLoop, h0]
  | cons b rest2 ih =>
    intro a ret fuel hw hf
    cases fuel with
    | zero => omega
    | succ f =>
      obtain ⟨hab, hb0, hw2⟩ := (walksTo_cons mem nx _ b rest2).mp hw
      have hstep : lenLoop mem nx (f + 1) a ret =
          lenLoop mem nx f (nx (mem a)) (ret + 1) := by
        simp [lenLoop, hb0]
      rw [hstep, ih (nx (mem a)) (ret + 1) f hw2 (by simpa using hf)]
      congr 1
      simp [List.length_cons]
      omega

theorem lenLoop_le (mem : Nat → T) (nx : T → Nat) :
    ∀ (fuel e ret n : Nat), lenLoop mem nx fuel e ret = some n → ret ≤ n := by
  intro fuel
  induction fuel with
  | zero => intro e ret n h; simp [lenLoop] at h
  | succ f ih =>
    intro e ret n h
    by_cases hp : nx (mem e) = 0
    · simp [lenLoop, hp] at h
      omega
    · simp [lenLoop, hp] at h
      have := ih (nx (mem e)) (ret + 1) n h
      omega

theorem iterCollect_chain (mem : Nat → T) (nx : T → Nat) :
    ∀ (addrs : List Nat) (fuel : Nat) (it : Iter T), it.list.next = nx →
      walksTo mem nx (iterPend mem it) addrs = true → addrs.length < fuel →
      iterCollect mem fuel it = some addrs := by
  intro addrs
  induction addrs with
  | nil =>
    intro fuel it hnx hw hf
    cases fuel with
    | zero => omega
    | succ f =>
      have h0 : iterPend mem it = 0 := (walksTo_nil mem nx _).mp hw
      simp [iterCollect, iter_next_eq, h0]
  | cons a rest ih =>
    intro fuel it hnx hw hf
    cases fuel with
    | zero => omega
    | succ f =>
      obtain ⟨hpa, ha0, hw2⟩ := (walksTo_cons mem nx _ a rest).mp hw
      have hne : iterPend mem it ≠ 0 := by rw [hpa] at ha0 ⊢; exact ha0
      have hstep : iterCollect mem (f + 1) it =
          match iterCollect mem f ⟨it.list, some (iterPend mem it)⟩ with
          | none => none
          | some rest2 => some (iterPend mem it :: rest2) := by
        simp [iterCollect, iter_next_eq, hne]
      have hrec : iterCollect mem f ⟨it.list, some (iterPend mem it)⟩ =
          some rest := by
        apply ih f ⟨it.list, some (iterPend mem it)⟩ hnx
        · have : iterPend mem ⟨it.list, some (iterPend mem it)⟩ =
              nx (mem (iterPend mem it)) := by
            simp [iterPend, hnx]
          rw [this, hpa]
          rw [hpa] at hw2
          exact hw2
        · simpa using hf
      rw [hstep, hrec, hpa]

theorem walksTo_congr (mem mem2 : Nat → T) (nx : T → Nat)
    (h : ∀ q, nx (mem2 q) = nx (mem q)) :
    ∀ (l : List Nat) (a : Nat), walksTo mem2 nx a l = walksTo mem nx a l := by
  intro l
  induction l with
  | nil => intro a; rfl
  | cons b rest ih =>
    intro a
    show (a == b && !(a == 0) && walksTo mem2 nx (nx (mem2 a)) rest) =
      (a == b && !(a == 0) && walksTo mem nx (nx (mem a)) rest)
    rw [h a, ih (nx (mem a))]

theorem iterMutForeach_chain (nx : T → Nat) (g : T → T)
    (hg : ∀ t, nx (g t) = nx t) :
    ∀ (addrs : List Nat) (fuel : Nat) (mem : Nat → T) (it : IterMut T),
      it.list.next = nx → walksTo mem nx (iterMutPend mem it) addrs = true →
      addrs.Nodup → addrs.length < fuel →
      iterMutForeach g fuel mem it =
        some (fun q => if q ∈ addrs then g (mem q) else mem q) := by
  intro addrs
  induction addrs with
  | nil =>
    intro fuel mem it hnx hw hnd hf
    cases fuel with
    | zero => omega
    | succ f =>
      have h0 : iterMutPend mem it = 0 := (walksTo_nil mem nx _).mp hw
      have hmem : (fun q => if q ∈ ([] : List Nat) then g (mem q) else mem q) =
          mem := by
        funext q
        simp
      rw [hmem]
      simp [iterMutForeach, iterMut_next_eq, h0]
  | cons a rest ih =>
    intro fuel mem it hnx hw hnd hf
    cases fuel with
    | zero => omega
    | succ f =>
      obtain ⟨hpa, ha0, hw2⟩ := (walksTo_cons mem nx _ a rest).mp hw
      have hne : iterMutPend mem it ≠ 0 := by rw [hpa] at ha0 ⊢; exact ha0
      have hstep : iterMutForeach g (f + 1) mem it =
          iterMutForeach g f
            (memWrite mem (iterMutPend mem it) (g (mem (iterMutPend mem it))))
            ⟨it.list, some (iterMutPend mem it)⟩ := by
        simp [iterMutForeach, iterMut_next_eq, hne]
      rw [hpa] at hstep hw2
      set mem2 := memWrite mem a (g (mem a)) with hmem2
      have hlink : ∀ q, nx (mem2 q) = nx (mem q) := by
        intro q
        by_cases hqa : q = a
        · simp [hmem2, memWrite, hqa, hg]
        · simp [hmem2, memWrite, hqa]
      have hrec : iterMutForeach g f mem2 ⟨it.list, some a⟩ =
          some (fun q => if q ∈ rest then g (mem2 q) else mem2 q) := by
        apply ih f mem2 ⟨it.list, some a⟩ hnx
        · have hp2 : iterMutPend mem2 ⟨it.list, some a⟩ = nx (mem a) := by
            simp [iterMutPend, hnx, hlink a]
          rw [hp2, walksTo_congr mem mem2 nx hlink]
          exact hw2
        · exact (List.nodup_cons.mp hnd).2
        · simpa using hf
      have hfun : (fun q => if q ∈ rest then g (mem2 q) else mem2 q) =
          (fun q => if q ∈ a :: rest then g (mem q) else mem q) := by
        funext q
        by_cases hqa : q = a
        · have hna : a ∉ rest := (List.nodup_cons.mp hnd).1
          subst hqa
          simp [hna, hmem2, memWrite]
        · by_cases hqr : q ∈ rest <;>
            simp [hqa, hqr, hmem2, memWrite]
      rw [hstep, hrec, hfun]

/-- C1: for every valid acyclic null-terminated chain exposed through a
non-null head, for a handle built by either constructor, the read-only
iterator yields exactly the successor walk from the head: the same
addresses in order, hence element-wise the same node values, and it yields
nothing more once the successor of the last node is the null sentinel. -/
theorem c1_iter_equals_successor_walk (mem : Nat → T) (nx : T → Nat)
    (h : Nat) (addrs : List Nat) (l : CLinkedList T) (fuel : Nat)
    (hw : walksTo mem nx h addrs = true)
    (hcons : CLinkedList.from_const_ptr h nx = some l ∨
      CLinkedList.from_mut_ptr h nx = some l)
    (hfuel : addrs.length < fuel) :
    iterCollect mem fuel (CLinkedList.iter l) = some addrs ∧
    (iterCollect mem fuel (CLinkedList.iter l)).map (List.map mem) =
      some (addrs.map mem) := by
  obtain ⟨h0, hl⟩ := from_ptr_some hcons
  subst hl
  have hmain : iterCollect mem fuel (CLinkedList.iter ⟨h, nx⟩) = some addrs := by
    apply iterCollect_chain mem nx addrs fuel _ rfl _ hfuel
    simpa [iterPend, CLinkedList.iter] using hw
  exact ⟨hmain, by rw [hmain]; rfl⟩

/-- Witness for C1 on the concrete three-node chain 1 → 2 → 3 → null. -/
theorem c1_iter_equals_successor_walk_witness :
    walksTo memT Prod.snd 1 [1, 2, 3] = true ∧
    (CLinkedList.from_const_ptr 1 Prod.snd =
      some (⟨1, Prod.snd⟩ : CLinkedList (Nat × Nat)) ∨
      CLinkedList.from_mut_ptr 1 Prod.snd =
      some (⟨1, Prod.snd⟩ : CLinkedList (Nat × Nat))) ∧
    ([1, 2, 3] : List Nat).length < 9 ∧
    (iterCollect memT 9 (CLinkedList.iter ⟨1, Prod.snd⟩) = some [1, 2, 3] ∧
      (iterCollect memT 9 (CLinkedList.iter ⟨1, Prod.snd⟩)).map
        (List.map memT) = some ([1, 2, 3].map memT)) :=
  ⟨rfl, Or.inl rfl, by decide,
    c1_iter_equals_successor_walk memT Prod.snd 1 [1, 2, 3] ⟨1, Prod.snd⟩ 9
      rfl (Or.inl rfl) (by decide)⟩

/-- C2: for a valid acyclic chain of length n, a null head (n = 0) makes
both constructors yield the absent outcome, and otherwise len on the
constructed handle returns exactly n, the head counting 1 plus one per
non-null successor, for any fuel of at least n. -/
theorem c2_len_counts_chain (mem : Nat → T) (nx : T → Nat)
    (h : Nat) (addrs : List Nat) (fuel : Nat)
    (hw : walksTo mem nx h addrs = true)
    (hfuel : addrs.length ≤ fuel) :
    (addrs = [] → CLinkedList.from_const_ptr h nx = none ∧
      CLinkedList.from_mut_ptr h nx = none) ∧
    (∀ l : CLinkedList T, CLinkedList.from_const_ptr h nx = some l ∨
      CLinkedList.from_mut_ptr h nx = some l →
      CLinkedList.len mem l fuel = some addrs.length) := by
  constructor
  · intro hnil
    subst hnil
    have h0 : h = 0 := (walksTo_nil mem nx h).mp hw
    simp [CLinkedList.from_const_ptr, CLinkedList.from_mut_ptr, h0]
  · intro l hcons
    obtain ⟨h0, hl⟩ := from_ptr_some hcons
    subst hl
    cases addrs with
    | nil => exact absurd ((walksTo_nil mem nx h).mp hw) h0
    | cons b rest =>
      obtain ⟨hab, _, hw2⟩ := (walksTo_cons mem nx h b rest).mp hw
      have hloop := lenLoop_eq mem nx rest h 1 fuel hw2 (by simpa using hfuel)
      have hlen : CLinkedList.len mem (⟨h, nx⟩ : CLinkedList T) fuel =
          lenLoop mem nx fuel h 1 := rfl
      rw [hlen, hloop]
      congr 1
      simp [List.length_cons]
      omega

/-- Witness for C2: on the chain 1 → 2 → 3 → null the constructed handle
has length 3, and a null head makes both constructors yield none. -/
theorem c2_len_counts_chain_witness :
    walksTo memT Prod.snd 1 [1, 2, 3] = true ∧
    ([1, 2, 3] : List Nat).length ≤ 9 ∧
    CLinkedList.len memT ⟨1, Prod.snd⟩ 9 = some ([1, 2, 3] : List Nat).length ∧
    walksTo memT Prod.snd 0 ([] : List Nat) = true ∧
    (CLinkedList.from_const_ptr 0 (Prod.snd : Nat × Nat → Nat) = none ∧
      CLinkedList.from_mut_ptr 0 (Prod.snd : Nat × Nat → Nat) = none) :=
  ⟨rfl, by decide,
    (c2_len_counts_chain memT Prod.snd 1 [1, 2, 3] 9 rfl (by decide)).2
      ⟨1, Prod.snd⟩ (Or.inl rfl),
    rfl,
    (c2_len_counts_chain memT Prod.snd 0 [] 9 rfl (by decide)).1 rfl⟩

/-- C4: both constructors yield the absent outcome exactly when the head
address is the null sentinel, and otherwise a handle wrapping exactly that
head address and that successor function; construction is a pure value
computation with no validation beyond the null check. -/
theorem c4_construction_null_check (h : Nat) (nx : T → Nat) :
    (CLinkedList.from_const_ptr h nx =
      if h = 0 then none else some ⟨h, nx⟩) ∧
    (CLinkedList.from_mut_ptr h nx =
      if h = 0 then none else some ⟨h, nx⟩) ∧
    (CLinkedList.from_const_ptr h nx = none ↔ h = 0) ∧
    (CLinkedList.from_mut_ptr h nx = none ↔ h = 0) := by
  refine ⟨rfl, rfl, ?_, ?_⟩ <;>
    by_cases h0 : h = 0 <;>
      simp [CLinkedList.from_const_ptr, CLinkedList.from_mut_ptr, h0]

/-- Witness for C4 at the concrete head address 7. -/
theorem c4_construction_null_check_witness :
    (CLinkedList.from_const_ptr 7 (Prod.snd : Nat × Nat → Nat) =
      if (7 : Nat) = 0 then none else some ⟨7, Prod.snd⟩) ∧
    (CLinkedList.from_mut_ptr 7 (Prod.snd : Nat × Nat → Nat) =
      if (7 : Nat) = 0 then none else some ⟨7, Prod.snd⟩) ∧
    (CLinkedList.from_const_ptr 7 (Prod.snd : Nat × Nat → Nat) = none ↔
      (7 : Nat) = 0) ∧
    (CLinkedList.from_mut_ptr 7 (Prod.snd : Nat × Nat → Nat) = none ↔
      (7 : Nat) = 0) :=
  c4_construction_null_check 7 Prod.snd

/-- C10: whenever len returns a count it is at least 1, because the count
is initialized to 1 for the head before any successor call: an existing
handle never reports length 0. -/
theorem c10_len_positive (mem : Nat → T) (l : CLinkedList T) (fuel n : Nat)
    (hlen : CLinkedList.len mem l fuel = some n) : 1 ≤ n :=
  lenLoop_le mem l.next fuel l.element 1 n hlen

/-- Witness for C10 on the concrete two-node chain. -/
theorem c10_len_positive_witness :
    CLinkedList.len memB ⟨1, Prod.snd⟩ 9 = some 2 ∧ 1 ≤ 2 :=
  ⟨rfl, c10_len_positive memB ⟨1, Prod.snd⟩ 9 2 rfl⟩

/-- C3: refuted on the code; this theorem exhibits the divergence.  On the
concrete chain 1 → 2 → null, one call to next consumes node 1 and exactly
one element remains (the remaining traversal collects [2]), yet size_hint
of both iterator kinds still reports (2, some 2): it recounts the full
list from the stored head instead of counting from the cursor, so after
any element has been consumed the hint no longer equals the number of
subsequent successful next calls, violating the exact-size contract the
claim states. -/
theorem c3_size_hint_stale_after_consumption :
    (Iter.next memB (CLinkedList.iter ⟨1, Prod.snd⟩)).1 = some 1 ∧
    iterCollect memB 9 (Iter.next memB (CLinkedList.iter ⟨1, Prod.snd⟩)).2 =
      some [2] ∧
    Iter.size_hint memB
      (Iter.next memB (CLinkedList.iter ⟨1, Prod.snd⟩)).2 9 =
      some (2, some 2) ∧
    (IterMut.next memB (CLinkedList.iter_mut ⟨1, Prod.snd⟩)).1 = some 1 ∧
    IterMut.size_hint memB
      (IterMut.next memB (CLinkedList.iter_mut ⟨1, Prod.snd⟩)).2 9 =
      some (2, some 2) :=
  ⟨rfl, rfl, rfl, rfl, rfl⟩

/-- C5: on a valid acyclic chain, contains returns a boolean that is true
exactly when some element value of the forward traversal equals x under
the element equality, first-match style via the read-only iteration. -/
theorem c5_contains_iff [DecidableEq T] (mem : Nat → T) (nx : T → Nat)
    (h : Nat) (addrs : List Nat) (l : CLinkedList T) (x : T) (fuel : Nat)
    (hw : walksTo mem nx h addrs = true)
    (hcons : CLinkedList.from_const_ptr h nx = some l ∨
      CLinkedList.from_mut_ptr h nx = some l)
    (hfuel : addrs.length < fuel) :
    CLinkedList.contains mem l x fuel =
      some (addrs.any fun a => mem a == x) ∧
    ((addrs.any fun a => mem a == x) = true ↔ x ∈ addrs.map mem) := by
  obtain ⟨h0, hl⟩ := from_ptr_some hcons
  subst hl
  have hcoll : iterCollect mem fuel
      (CLinkedList.iter (⟨h, nx⟩ : CLinkedList T)) = some addrs := by
    apply iterCollect_chain mem nx addrs fuel _ rfl _ hfuel
    simpa [iterPend, CLinkedList.iter] using hw
  constructor
  · show (match iterCollect mem fuel
        (CLinkedList.iter (⟨h, nx⟩ : CLinkedList T)) with
      | none => none
      | some addrs2 => some (addrs2.any fun a => mem a == x)) =
      some (addrs.any fun a => mem a == x)
    rw [hcoll]
  · simp [List.any_eq_true, List.mem_map]

/-- Witness for C5 on the chain 1 → 2 → 3 → null, searching for the node
value (30, 0), which is the value of the last node. -/
theorem c5_contains_iff_witness :
    walksTo memT Prod.snd 1 [1, 2, 3] = true ∧
    ([1, 2, 3] : List Nat).length < 9 ∧
    (CLinkedList.contains memT ⟨1, Prod.snd⟩ ((30, 0) : Nat × Nat) 9 =
      some (([1, 2, 3] : List Nat).any fun a => memT a == (30, 0)) ∧
      ((([1, 2, 3] : List Nat).any fun a => memT a == (30, 0)) = true ↔
        ((30, 0) : Nat × Nat) ∈ ([1, 2, 3] : List Nat).map memT)) :=
  ⟨rfl, by decide,
    c5_contains_iff memT Prod.snd 1 [1, 2, 3] ⟨1, Prod.snd⟩ (30, 0) 9
      rfl (Or.inl rfl) (by decide)⟩

/-- C6: is_empty is true exactly when the stored head address is the null
sentinel, front and front_mut are none exactly when it is, otherwise they
reference the head node; and since both constructors reject a null head, a
constructed handle is never reported empty and its front is always the
head element. -/
theorem c6_is_empty_front (h : Nat) (nx : T → Nat) (l : CLinkedList T) :
    (CLinkedList.is_empty l = true ↔ l.element = 0) ∧
    (CLinkedList.front l = none ↔ l.element = 0) ∧
    (CLinkedList.front_mut l = none ↔ l.element = 0) ∧
    (l.element ≠ 0 → CLinkedList.front l = some l.element ∧
      CLinkedList.front_mut l = some l.element) ∧
    ((CLinkedList.from_const_ptr h nx = some l ∨
        CLinkedList.from_mut_ptr h nx = some l) →
      CLinkedList.is_empty l = false ∧
      CLinkedList.front l = some l.element ∧
      CLinkedList.front_mut l = some l.element ∧ l.element = h) := by
  refine ⟨?_, ?_, ?_, ?_, ?_⟩
  · simp [CLinkedList.is_empty]
  · by_cases h0 : l.element = 0 <;> simp [CLinkedList.front, h0]
  · by_cases h0 : l.element = 0 <;> simp [CLinkedList.front_mut, h0]
  · intro h0
    simp [CLinkedList.front, CLinkedList.front_mut, h0]
  · intro hcons
    obtain ⟨h0, hl⟩ := from_ptr_some hcons
    subst hl
    simp [CLinkedList.is_empty, CLinkedList.front, CLinkedList.front_mut, h0]

/-- Witness for C6 at the concrete handle over head address 1. -/
theorem c6_is_empty_front_witness :
    (CLinkedList.is_empty (⟨1, Prod.snd⟩ : CLinkedList (Nat × Nat)) = true ↔
      (⟨1, Prod.snd⟩ : CLinkedList (Nat × Nat)).element = 0) ∧
    (CLinkedList.front (⟨1, Prod.snd⟩ : CLinkedList (Nat × Nat)) = none ↔
      (⟨1, Prod.snd⟩ : CLinkedList (Nat × Nat)).element = 0) ∧
    (CLinkedList.front_mut (⟨1, Prod.snd⟩ : CLinkedList (Nat × Nat)) = none ↔
      (⟨1, Prod.snd⟩ : CLinkedList (Nat × Nat)).element = 0) ∧
    ((⟨1, Prod.snd⟩ : CLinkedList (Nat × Nat)).element ≠ 0 →
      CLinkedList.front (⟨1, Prod.snd⟩ : CLinkedList (Nat × Nat)) =
        some (⟨1, Prod.snd⟩ : CLinkedList (Nat × Nat)).element ∧
      CLinkedList.front_mut (⟨1, Prod.snd⟩ : CLinkedList (Nat × Nat)) =
        some (⟨1, Prod.snd⟩ : CLinkedList (Nat × Nat)).element) ∧
    ((CLinkedList.from_const_ptr 1 Prod.snd =
        some (⟨1, Prod.snd⟩ : CLinkedList (Nat × Nat)) ∨
      CLinkedList.from_mut_ptr 1 Prod.snd =
        some (⟨1, Prod.snd⟩ : CLinkedList (Nat × Nat))) →
      CLinkedList.is_empty (⟨1, Prod.snd⟩ : CLinkedList (Nat × Nat)) = false ∧
      CLinkedList.front (⟨1, Prod.snd⟩ : CLinkedList (Nat × Nat)) =
        some (⟨1, Prod.snd⟩ : CLinkedList (Nat × Nat)).element ∧
      CLinkedList.front_mut (⟨1, Prod.snd⟩ : CLinkedList (Nat × Nat)) =
        some (⟨1, Prod.snd⟩ : CLinkedList (Nat × Nat)).element ∧
      (⟨1, Prod.snd⟩ : CLinkedList (Nat × Nat)).element = 1) :=
  c6_is_empty_front 1 Prod.snd ⟨1, Prod.snd⟩

/-- C8: exhaustion is fused for both iterator kinds: when a next call
yields none the cursor state is left unchanged, and after any number k of
further next calls the state is still unchanged and next still yields
none, given the same stable memory and successor function. -/
theorem c8_exhaustion_fused (mem : Nat → T) (it : Iter T) (itm : IterMut T)
    (k : Nat)
    (h1 : (Iter.next mem it).1 = none)
    (h2 : (IterMut.next mem itm).1 = none) :
    ((Iter.next mem it).2 = it ∧
      Nat.iterate (fun s => (Iter.next mem s).2) k it = it ∧
      (Iter.next mem
        (Nat.iterate (fun s => (Iter.next mem s).2) k it)).1 = none) ∧
    ((IterMut.next mem itm).2 = itm ∧
      Nat.iterate (fun s => (IterMut.next mem s).2) k itm = itm ∧
      (IterMut.next mem
        (Nat.iterate (fun s => (IterMut.next mem s).2) k itm)).1 =
        none) := by
  have hp1 : iterPend mem it = 0 := by
    by_contra hne
    rw [iter_next_eq] at h1
    simp [hne] at h1
  have hp2 : iterMutPend mem itm = 0 := by
    by_contra hne
    rw [iterMut_next_eq] at h2
    simp [hne] at h2
  have hstep1 : Iter.next mem it = (none, it) := by
    rw [iter_next_eq, if_pos hp1]
  have hstep2 : IterMut.next mem itm = (none, itm) := by
    rw [iterMut_next_eq, if_pos hp2]
  have hiter1 : Nat.iterate (fun s => (Iter.next mem s).2) k it = it := by
    induction k with
    | zero => rfl
    | succ n ih =>
      rw [Function.iterate_succ_apply', ih]
      show (Iter.next mem it).2 = it
      rw [hstep1]
  have hiter2 : Nat.iterate (fun s => (IterMut.next mem s).2) k itm =
      itm := by
    clear hiter1
    induction k with
    | zero => rfl
    | succ n ih =>
      rw [Function.iterate_succ_apply', ih]
      show (IterMut.next mem itm).2 = itm
      rw [hstep2]
  refine ⟨⟨by rw [hstep1], hiter1, ?_⟩, ⟨by rw [hstep2], hiter2, ?_⟩⟩
  · rw [hiter1, hstep1]
  · rw [hiter2, hstep2]

/-- Witness for C8 on an exhausted iterator over the chain 1 → 2 → null,
whose cursor sits at the last node, checked after 3 further calls. -/
theorem c8_exhaustion_fused_witness :
    (Iter.next memB (⟨⟨1, Prod.snd⟩, some 2⟩ : Iter (Nat × Nat))).1 = none ∧
    (IterMut.next memB
      (⟨⟨1, Prod.snd⟩, some 2⟩ : IterMut (Nat × Nat))).1 = none ∧
    (((Iter.next memB (⟨⟨1, Prod.snd⟩, some 2⟩ : Iter (Nat × Nat))).2 =
        (⟨⟨1, Prod.snd⟩, some 2⟩ : Iter (Nat × Nat)) ∧
      Nat.iterate (fun s => (Iter.next memB s).2) 3
        (⟨⟨1, Prod.snd⟩, some 2⟩ : Iter (Nat × Nat)) =
        (⟨⟨1, Prod.snd⟩, some 2⟩ : Iter (Nat × Nat)) ∧
      (Iter.next memB (Nat.iterate (fun s => (Iter.next memB s).2) 3
        (⟨⟨1, Prod.snd⟩, some 2⟩ : Iter (Nat × Nat)))).1 = none) ∧
    ((IterMut.next memB
        (⟨⟨1, Prod.snd⟩, some 2⟩ : IterMut (Nat × Nat))).2 =
        (⟨⟨1, Prod.snd⟩, some 2⟩ : IterMut (Nat × Nat)) ∧
      Nat.iterate (fun s => (IterMut.next memB s).2) 3
        (⟨⟨1, Prod.snd⟩, some 2⟩ : IterMut (Nat × Nat)) =
        (⟨⟨1, Prod.snd⟩, some 2⟩ : IterMut (Nat × Nat)) ∧
      (IterMut.next memB
        (Nat.iterate (fun s => (IterMut.next memB s).2) 3
        (⟨⟨1, Prod.snd⟩, some 2⟩ : IterMut (Nat × Nat)))).1 = none)) :=
  ⟨rfl, rfl,
    c8_exhaustion_fused memB ⟨⟨1, Prod.snd⟩, some 2⟩
      ⟨⟨1, Prod.snd⟩, some 2⟩ 3 rfl rfl⟩

theorem len_eq_of_walksTo (mem : Nat → T) (nx : T → Nat) (h : Nat)
    (addrs : List Nat) (fuel : Nat) (hw : walksTo mem nx h addrs = true)
    (hne : addrs ≠ []) (hfuel : addrs.length ≤ fuel) :
    CLinkedList.len mem (⟨h, nx⟩ : CLinkedList T) fuel = some addrs.length := by
  cases addrs with
  | nil => exact absurd rfl hne
  | cons b rest =>
    obtain ⟨hab, hb0, hw2⟩ := (walksTo_cons mem nx h b rest).mp hw
    have hloop := lenLoop_eq mem nx rest h 1 fuel hw2 (by simpa using hfuel)
    have hlen : CLinkedList.len mem (⟨h, nx⟩ : CLinkedList T) fuel =
        lenLoop mem nx fuel h 1 := rfl
    rw [hlen, hloop]
    congr 1
    simp [List.length_cons]
    omega

/-- C7: mutation through the mutable iterator and through front_mut is
visible to later independent reads.  Running the iter_mut foreach loop
that rewrites every node with a link-preserving function g produces a
memory on which a fresh read-only iterator yields the same addresses in
the same order with the updated values, len is unchanged, and a value
written through the reference yielded by front_mut is observed by a later
front. -/
theorem c7_mutation_visible (mem : Nat → T) (nx : T → Nat) (g : T → T)
    (h : Nat) (rest : List Nat) (l : CLinkedList T) (fuel : Nat) (v : T)
    (hg : ∀ t, nx (g t) = nx t)
    (hw : walksTo mem nx h (h :: rest) = true)
    (hnd : (h :: rest).Nodup)
    (hcons : CLinkedList.from_mut_ptr h nx = some l)
    (hfuel : (h :: rest).length < fuel) :
    ∃ memF, iterMutForeach g fuel mem (CLinkedList.iter_mut l) = some memF ∧
      iterCollect memF fuel (CLinkedList.iter l) = some (h :: rest) ∧
      (h :: rest).map memF = (h :: rest).map (fun a => g (mem a)) ∧
      CLinkedList.len memF l fuel = some (h :: rest).length ∧
      CLinkedList.len mem l fuel = some (h :: rest).length ∧
      CLinkedList.front_mut l = some l.element ∧
      (CLinkedList.front l).map (memWrite memF l.element v) = some v := by
  obtain ⟨h0, hl⟩ := from_ptr_some (Or.inr hcons)
  subst hl
  have hlink : ∀ q,
      nx (if q ∈ h :: rest then g (mem q) else mem q) = nx (mem q) := by
    intro q
    by_cases hq : q ∈ h :: rest <;> simp [hq, hg]
  have hwF : walksTo (fun q => if q ∈ h :: rest then g (mem q) else mem q)
      nx h (h :: rest) = true := by
    rw [walksTo_congr mem
      (fun q => if q ∈ h :: rest then g (mem q) else mem q) nx hlink]
    exact hw
  have hforeach : iterMutForeach g fuel mem
      (CLinkedList.iter_mut (⟨h, nx⟩ : CLinkedList T)) =
      some (fun q => if q ∈ h :: rest then g (mem q) else mem q) := by
    apply iterMutForeach_chain nx g hg (h :: rest) fuel mem _ rfl _ hnd hfuel
    simpa [iterMutPend, CLinkedList.iter_mut] using hw
  have hcoll : iterCollect
      (fun q => if q ∈ h :: rest then g (mem q) else mem q) fuel
      (CLinkedList.iter (⟨h, nx⟩ : CLinkedList T)) = some (h :: rest) := by
    apply iterCollect_chain
      (fun q => if q ∈ h :: rest then g (mem q) else mem q) nx
      (h :: rest) fuel _ rfl _ hfuel
    simpa [iterPend, CLinkedList.iter] using hwF
  have hmap : (h :: rest).map
      (fun q => if q ∈ h :: rest then g (mem q) else mem q) =
      (h :: rest).map (fun a => g (mem a)) := by
    rw [List.map_eq_map_iff]
    intro a ha
    simp [ha]
  have hlenF : CLinkedList.len
      (fun q => if q ∈ h :: rest then g (mem q) else mem q)
      (⟨h, nx⟩ : CLinkedList T) fuel = some (h :: rest).length :=
    len_eq_of_walksTo _ nx h (h :: rest) fuel hwF (by simp) (by omega)
  have hlen : CLinkedList.len mem (⟨h, nx⟩ : CLinkedList T) fuel =
      some (h :: rest).length :=
    len_eq_of_walksTo mem nx h (h :: rest) fuel hw (by simp) (by omega)
  refine ⟨_, hforeach, hcoll, hmap, hlenF, hlen, ?_, ?_⟩
  · simp [CLinkedList.front_mut, h0]
  · simp [CLinkedList.front, h0, memWrite]

/-- Witness for C7 on the chain 1 → 2 → 3 → null, incrementing every
payload through the mutable iterator and writing (99, 2) through the
front_mut reference. -/
theorem c7_mutation_visible_witness :
    walksTo memT Prod.snd 1 [1, 2, 3] = true ∧
    ([1, 2, 3] : List Nat).Nodup ∧
    CLinkedList.from_mut_ptr 1 Prod.snd =
      some (⟨1, Prod.snd⟩ : CLinkedList (Nat × Nat)) ∧
    ([1, 2, 3] : List Nat).length < 9 ∧
    (∃ memF, iterMutForeach (fun t : Nat × Nat => (t.1 + 1, t.2)) 9 memT
        (CLinkedList.iter_mut ⟨1, Prod.snd⟩) = some memF ∧
      iterCollect memF 9 (CLinkedList.iter ⟨1, Prod.snd⟩) = some [1, 2, 3] ∧
      ([1, 2, 3] : List Nat).map memF =
        ([1, 2, 3] : List Nat).map (fun a => ((memT a).1 + 1, (memT a).2)) ∧
      CLinkedList.len memF ⟨1, Prod.snd⟩ 9 =
        some ([1, 2, 3] : List Nat).length ∧
      CLinkedList.len memT ⟨1, Prod.snd⟩ 9 =
        some ([1, 2, 3] : List Nat).length ∧
      CLinkedList.front_mut (⟨1, Prod.snd⟩ : CLinkedList (Nat × Nat)) =
        some (⟨1, Prod.snd⟩ : CLinkedList (Nat × Nat)).element ∧
      (CLinkedList.front (⟨1, Prod.snd⟩ : CLinkedList (Nat × Nat))).map
        (memWrite memF (⟨1, Prod.snd⟩ : CLinkedList (Nat × Nat)).element
          ((99, 2) : Nat × Nat)) = some ((99, 2) : Nat × Nat)) :=
  ⟨rfl, by decide, rfl, by decide,
    c7_mutation_visible memT Prod.snd (fun t => (t.1 + 1, t.2)) 1 [2, 3]
      ⟨1, Prod.snd⟩ 9 (99, 2) (fun t => rfl) rfl (by decide) rfl (by decide)⟩

end CLinkedListModel
